import Mathlib

/-!
Verification of the CSV-Plotter format-inference and type-classification
pipeline (server/src/services/parser.js and server/src/services/inferTypes.js).

The JavaScript source is shallowly embedded: each JS function becomes a Lean
function of the same name.  JS strings are Lean strings, with the primitive
string operations (split, trim, replaceAll, character iteration) implemented
structurally over the character list so they evaluate inside the kernel.
JS numbers that the pipeline produces from cell text are modelled as exact
rationals (the decimal-literal grammar of the host's string-to-number
conversion); ratio comparisons against the literal thresholds 0.9, 0.8 and
0.5 are stated as rational inequalities exactly as the source writes them,
with a decision procedure by cross-multiplication.
-/

/-! ## JavaScript string primitives, modelled structurally -/

/-- Splits a character stream at CRLF, LF or CR, as the source's
`text.split(/\r\n|\n|\r/)` does (CRLF counts as a single break). -/
def splitLinesAux : List Char → List Char → List String
  | [], acc => [⟨acc.reverse⟩]
  | '\r' :: '\n' :: rest, acc => ⟨acc.reverse⟩ :: splitLinesAux rest []
  | '\n' :: rest, acc => ⟨acc.reverse⟩ :: splitLinesAux rest []
  | '\r' :: rest, acc => ⟨acc.reverse⟩ :: splitLinesAux rest []
  | c :: rest, acc => splitLinesAux rest (c :: acc)

/-- The line splitter of `preprocessLines`: `text.split(/\r\n|\n|\r/)`. -/
def jsSplitLines (s : String) : List String :=
  splitLinesAux s.data []

/-- Model of `String.prototype.trim` (the JS whitespace class is wider than
ASCII whitespace; the pipeline only meets ASCII input). -/
def jsTrim (s : String) : String :=
  ⟨((s.data.dropWhile Char.isWhitespace).reverse.dropWhile Char.isWhitespace).reverse⟩

/-- A line is a comment when `line.trimStart().startsWith('#')`. -/
def isCommentLine (l : String) : Bool :=
  match l.data.dropWhile Char.isWhitespace with
  | '#' :: _ => true
  | _ => false

/-- Fuel-driven splitter underlying `jsSplitOn`.  The fuel starts above the
input length, so it never runs out; it only makes the recursion structural. -/
def splitOnAuxFuel (sep : List Char) : Nat → List Char → List Char → List (List Char)
  | 0, input, acc => [acc.reverse ++ input]
  | _ + 1, [], acc => [acc.reverse]
  | fuel + 1, c :: rest, acc =>
    if sep.isPrefixOf (c :: rest) then
      acc.reverse :: splitOnAuxFuel sep fuel ((c :: rest).drop sep.length) []
    else
      splitOnAuxFuel sep fuel rest (c :: acc)

/-- Model of `String.prototype.split(sep)` for a non-empty separator string.
(The source never splits on the empty string: an empty override is falsy and
routes to auto-detection.) -/
def jsSplitOn (sep : String) (s : String) : List String :=
  match sep.data with
  | [] => [s]
  | seps => (splitOnAuxFuel seps (s.data.length + 1) s.data []).map (fun cs => ⟨cs⟩)

/-- Model of `cell.replaceAll(',', '.')`: the decimal-normalization rewrite. -/
def replaceCommasWithDots (s : String) : String :=
  ⟨s.data.map (fun c => if c = ',' then '.' else c)⟩

/-- Counts occurrences of a character in a line, as the delimiter detector's
`for (const ch of line) if (ch === delim) count++` loop does. -/
def countChar (c : Char) (s : String) : Nat :=
  s.data.foldl (fun n ch => if ch = c then n + 1 else n) 0

/-! ## Delimiter detection (`autoDetectDelimiter`) -/

/-- `Math.min(...counts)` over a non-empty list (the source only calls it on
the non-empty sample). -/
def jsMinL : List Nat → Nat
  | [] => 0
  | h :: t => t.foldl Nat.min h

/-- `Math.max(...counts)` over a non-empty list. -/
def jsMaxL : List Nat → Nat
  | [] => 0
  | h :: t => t.foldl Nat.max h

/-- Per-line occurrence counts of a candidate delimiter over the sample
window (the first five data lines). -/
def sampleCounts (dataLines : List String) (c : Char) : List Nat :=
  (dataLines.take 5).map (countChar c)

/-- The sample-window minimum count of a candidate delimiter. -/
def minCountOf (dataLines : List String) (c : Char) : Nat :=
  jsMinL (sampleCounts dataLines c)

/-- The sample-window maximum count of a candidate delimiter. -/
def maxCountOf (dataLines : List String) (c : Char) : Nat :=
  jsMaxL (sampleCounts dataLines c)

/-- The per-candidate record built inside `autoDetectDelimiter`. -/
structure DelimStat where
  delim : Char
  minCount : Nat
  maxCount : Nat
  isConsistent : Bool
  deriving DecidableEq, Repr

/-- One entry of the `results` array of `autoDetectDelimiter`:
min and max of the per-line counts, and the consistency flag
`minCount === maxCount && minCount > 0`. -/
def delimStat (sampleLines : List String) (c : Char) : DelimStat :=
  let counts := sampleLines.map (countChar c)
  let minCount := jsMinL counts
  let maxCount := jsMaxL counts
  ⟨c, minCount, maxCount, (minCount == maxCount) && !(minCount == 0)⟩

/-- One comparison step of the fallback selection.  The source sorts the
surviving candidates with a stable sort by ascending `max - min`, breaking
ties by descending `min`, and takes the head; folding this keep-first-on-tie
step over the list computes exactly that head. -/
def pickBetter (best r : DelimStat) : DelimStat :=
  let varBest := best.maxCount - best.minCount
  let varR := r.maxCount - r.minCount
  if varR < varBest ∨ (varR = varBest ∧ best.minCount < r.minCount) then r else best

/-- `autoDetectDelimiter`: examine the first five data lines; return the
first consistent candidate in the priority order tab, semicolon, comma;
otherwise the non-zero candidate of least variance (ties by highest
minimum); otherwise comma. -/
def autoDetectDelimiter (dataLines : List String) : String :=
  let sampleLines := dataLines.take 5
  if sampleLines = [] then ","
  else
    let results := [('\t' : Char), ';', ','].map (delimStat sampleLines)
    match results.filter (fun r => r.isConsistent) with
    | r :: _ => r.delim.toString
    | [] =>
      match results.filter (fun r => !(r.minCount == 0)) with
      | [] => ","
      | w :: ws => (ws.foldl pickBetter w).delim.toString

/-- `detectDecimalSeparator`: semicolon-delimited files use the comma as
decimal mark, everything else uses the dot. -/
def detectDecimalSeparator (delimiter : String) : String :=
  if delimiter = ";" then "," else "."

/-! ## String-to-number conversion (`Number(...)`) -/

/-- Splits off the leading run of decimal digits. -/
def spanDigits (cs : List Char) : List Char × List Char :=
  cs.span (fun c => c.isDigit)

/-- Value of a digit run. -/
def digitsToNat (ds : List Char) : Nat :=
  ds.foldl (fun a c => 10 * a + (c.toNat - 48)) 0

/-- Syntactic parts of a JS decimal number literal:
sign, integer part, fractional digits (value and how many), exponent. -/
structure NumParts where
  neg : Bool
  intPart : Nat
  fracPart : Nat
  fracLen : Nat
  expNeg : Bool
  expVal : Nat
  deriving DecidableEq, Repr

/-- Parses the optional exponent suffix (`e`/`E`, optional sign, digits) and
requires the input to be fully consumed. -/
def parseExpPart (neg : Bool) (ip fp fl : Nat) : List Char → Option NumParts
  | [] => some ⟨neg, ip, fp, fl, false, 0⟩
  | e :: rest =>
    if e = 'e' ∨ e = 'E' then
      let (expNeg, r2) :=
        match rest with
        | '+' :: t => (false, t)
        | '-' :: t => (true, t)
        | t => (false, t)
      let (eds, r3) := spanDigits r2
      if eds.isEmpty || !r3.isEmpty then none
      else some ⟨neg, ip, fp, fl, expNeg, digitsToNat eds⟩
    else none

/-- Parses a complete JS decimal number literal
`[+|-] ( digits [ '.' digits* ] | '.' digits+ ) [ (e|E) [+|-] digits+ ]`.
This is the grammar accepted by the host's `Number(str)` on the trimmed
strings the pipeline feeds it (the host additionally accepts hexadecimal,
octal, binary and Infinity forms, which produce no finite decimal value and
do not occur in the pipeline's inputs; they are outside this model). -/
def parseNumParts (s : String) : Option NumParts :=
  let (neg, cs1) :=
    match s.data with
    | '+' :: t => (false, t)
    | '-' :: t => (true, t)
    | t => (false, t)
  let (ids, r1) := spanDigits cs1
  match r1 with
  | '.' :: r2 =>
    let (fds, r3) := spanDigits r2
    if ids.isEmpty && fds.isEmpty then none
    else parseExpPart neg (digitsToNat ids) (digitsToNat fds) fds.length r3
  | r1' =>
    if ids.isEmpty then none
    else parseExpPart neg (digitsToNat ids) 0 0 r1'

/-- The exact rational value of a parsed decimal literal. -/
def partsToRat (p : NumParts) : ℚ :=
  (if p.neg then (-1 : ℚ) else 1) *
    ((p.intPart : ℚ) + (p.fracPart : ℚ) / (10 : ℚ) ^ p.fracLen) *
    (10 : ℚ) ^ (if p.expNeg then -(p.expVal : ℤ) else (p.expVal : ℤ))

/-- Model of `Number(str)` restricted to the finite values the pipeline can
produce: `some q` exactly when `str` is a decimal literal (then the value is
exact), `none` when `Number(str)` would be `NaN` on the pipeline's inputs. -/
def jsNumber? (s : String) : Option ℚ :=
  (parseNumParts s).map partsToRat

/-! ## Ratio comparisons

The source compares ratios such as `numericCount / nonNullCount >= 0.9` and
`candidateCells.length > 0 ? candidateNumericCount / candidateCells.length : 0`
against literal thresholds.  `jsRatio` is the guarded quotient; the three
comparison predicates state the rational inequalities verbatim and carry a
decision procedure by cross-multiplication (exact for every count, matching
the hard thresholds with no rounding tolerance). -/

/-- `den > 0 ? num / den : 0`, over ℚ.  (Also equal to `num / den` outright,
since division by zero is zero in ℚ.) -/
def jsRatio (num den : Nat) : ℚ :=
  if 0 < den then (num : ℚ) / den else 0

theorem jsRatio_eq_div (num den : Nat) : jsRatio num den = (num : ℚ) / den := by
  by_cases h : 0 < den
  · rw [jsRatio, if_pos h]
  · rw [jsRatio, if_neg h, Nat.eq_zero_of_not_pos h]
    simp

/-- The guarded ratio `a / b` is strictly greater than the threshold `c / d`. -/
def ratioGT (a b c d : Nat) : Prop := jsRatio a b > (c : ℚ) / d

/-- The guarded ratio `a / b` is strictly below the threshold `c / d`. -/
def ratioLT (a b c d : Nat) : Prop := jsRatio a b < (c : ℚ) / d

/-- The guarded ratio `a / b` is at least the threshold `c / d`. -/
def ratioGE (a b c d : Nat) : Prop := jsRatio a b ≥ (c : ℚ) / d

theorem ratioGT_iff (a b c d : Nat) :
    ratioGT a b c d ↔
      (if 0 < b then (if 0 < d then c * b < a * d else 0 < a) else False) := by
  unfold ratioGT
  rw [jsRatio_eq_div]
  by_cases hb : 0 < b <;> by_cases hd : 0 < d <;> simp only [hb, hd, if_true, if_false]
  · rw [gt_iff_lt, div_lt_div_iff₀ (by exact_mod_cast hd) (by exact_mod_cast hb)]
    exact_mod_cast Iff.rfl
  · rw [Nat.eq_zero_of_not_pos hd]
    push_cast
    rw [div_zero, gt_iff_lt, lt_div_iff₀ (by exact_mod_cast hb : (0:ℚ) < b)]
    simp [Nat.pos_iff_ne_zero]
  · rw [Nat.eq_zero_of_not_pos hb]
    push_cast
    rw [div_zero]
    simp only [gt_iff_lt, iff_false, not_lt]
    positivity
  · rw [Nat.eq_zero_of_not_pos hb, Nat.eq_zero_of_not_pos hd]
    push_cast
    simp

theorem ratioLT_iff (a b c d : Nat) :
    ratioLT a b c d ↔
      (if 0 < b then (if 0 < d then a * d < c * b else False)
       else (if 0 < d then 0 < c else False)) := by
  unfold ratioLT
  rw [jsRatio_eq_div]
  by_cases hb : 0 < b <;> by_cases hd : 0 < d <;> simp only [hb, hd, if_true, if_false]
  · rw [div_lt_div_iff₀ (by exact_mod_cast hb) (by exact_mod_cast hd)]
    exact_mod_cast Iff.rfl
  · rw [Nat.eq_zero_of_not_pos hd]
    push_cast
    rw [div_zero]
    simp only [iff_false, not_lt]
    positivity
  · rw [Nat.eq_zero_of_not_pos hb]
    push_cast
    rw [div_zero, lt_div_iff₀ (by exact_mod_cast hd : (0:ℚ) < d)]
    simp [Nat.pos_iff_ne_zero]
  · rw [Nat.eq_zero_of_not_pos hb, Nat.eq_zero_of_not_pos hd]
    push_cast
    simp

theorem ratioGE_iff (a b c d : Nat) :
    ratioGE a b c d ↔
      (if 0 < b then (if 0 < d then c * b ≤ a * d else True)
       else (if 0 < d then c = 0 else True)) := by
  unfold ratioGE
  rw [jsRatio_eq_div]
  by_cases hb : 0 < b <;> by_cases hd : 0 < d <;> simp only [hb, hd, if_true, if_false]
  · rw [ge_iff_le, div_le_div_iff₀ (by exact_mod_cast hd) (by exact_mod_cast hb)]
    exact_mod_cast Iff.rfl
  · rw [Nat.eq_zero_of_not_pos hd]
    push_cast
    rw [div_zero, ge_iff_le]
    simp only [iff_true]
    positivity
  · rw [Nat.eq_zero_of_not_pos hb]
    push_cast
    rw [div_zero, ge_iff_le, div_le_iff₀ (by exact_mod_cast hd : (0:ℚ) < d)]
    constructor
    · intro h
      by_contra hc
      have : (0:ℚ) < (c:ℚ) := by
        exact_mod_cast Nat.pos_of_ne_zero hc
      nlinarith
    · intro h
      subst h
      simp
  · rw [Nat.eq_zero_of_not_pos hb, Nat.eq_zero_of_not_pos hd]
    push_cast
    simp

instance (a b c d : Nat) : Decidable (ratioGT a b c d) :=
  decidable_of_iff _ (ratioGT_iff a b c d).symm

instance (a b c d : Nat) : Decidable (ratioLT a b c d) :=
  decidable_of_iff _ (ratioLT_iff a b c d).symm

instance (a b c d : Nat) : Decidable (ratioGE a b c d) :=
  decidable_of_iff _ (ratioGE_iff a b c d).symm

/-! ## Header detection (`detectHeader`) -/

/-- `isNumericCell`: a raw cell looks numeric when, after trimming and (for
comma-decimal files) swapping commas to dots, it converts to a number. -/
def isNumericCell (raw : String) (decimalSep : String) : Bool :=
  if jsTrim raw = "" then false
  else
    let trimmed := jsTrim raw
    let normalized := if decimalSep = "," then replaceCommasWithDots trimmed else trimmed
    (jsNumber? normalized).isSome && !(normalized == "")

/-- The trimmed cells of one line, split by the delimiter. -/
def lineCells (delimiter : String) (l : String) : List String :=
  (jsSplitOn delimiter l).map jsTrim

/-- The cells of the (up to five) sampled data lines, in scan order. -/
def sampleDataCells (delimiter : String) (dataLines : List String) : List String :=
  ((dataLines.take 5).map (lineCells delimiter)).flatten

/-- `detectHeader`: compare the numeric density of the candidate first line
against the density over a sample of the following data lines.  An empty
`dataLines` (single-line file) is immediately a header. -/
def detectHeader (candidateLine : String) (dataLines : List String)
    (delimiter decimalSep : String) : Bool :=
  if dataLines = [] then true
  else
    let candidateCells := lineCells delimiter candidateLine
    let candidateNumericCount :=
      (candidateCells.filter (fun cell => isNumericCell cell decimalSep)).length
    let cells := sampleDataCells delimiter dataLines
    let totalDataCells := cells.length
    let totalDataNumeric := (cells.filter (fun cell => isNumericCell cell decimalSep)).length
    if ratioGT totalDataNumeric totalDataCells 5 10 ∧
       ratioLT candidateNumericCount candidateCells.length 5 10 then true
    else if ratioGE candidateNumericCount candidateCells.length 5 10 then false
    else true

/-! ## Converted cell values

A converted cell is null, a (finite) number, or a string.  The host's
non-finite numbers cannot arise from the modelled decimal grammar, so
`vnum` always carries a finite value and the source's `isFinite` guard is
identically true on it. -/

/-- A converted cell value: `null`, a number, or a string. -/
inductive Value where
  | vnull : Value
  | vnum (q : ℚ) : Value
  | vstr (s : String) : Value
  deriving DecidableEq

/-! ## Date recognition (`inferTypes.js`) -/

/-- Consumes exactly `n` decimal digits. -/
def pDigitsExact : Nat → List Char → Option (List Char)
  | 0, cs => some cs
  | _ + 1, [] => none
  | n + 1, c :: cs => if c.isDigit then pDigitsExact n cs else none

/-- Consumes a greedy digit run of length between `lo` and `hi` (the regex
`\d{lo,hi}` in a context where the next token is not a digit). -/
def pDigitsRange (lo hi : Nat) (cs : List Char) : Option (List Char) :=
  let (ds, r) := spanDigits cs
  if lo ≤ ds.length ∧ ds.length ≤ hi then some r else none

/-- Consumes one or more digits (the regex `\d+`). -/
def pDigitsPlus (cs : List Char) : Option (List Char) :=
  let (ds, r) := spanDigits cs
  if ds.isEmpty then none else some r

/-- Consumes one given character. -/
def pChar (c : Char) : List Char → Option (List Char)
  | x :: r => if x = c then some r else none
  | [] => none

/-- Consumes one or more whitespace characters (the regex `\s+`). -/
def pSpaces1 (cs : List Char) : Option (List Char) :=
  let (ws, r) := cs.span Char.isWhitespace
  if ws.isEmpty then none else some r

/-- Consumes a time-zone offset `[+-]\d{2}:?\d{2}`. -/
def pTZOffset : List Char → Option (List Char)
  | c :: r1 =>
    if c = '+' ∨ c = '-' then
      (pDigitsExact 2 r1).bind fun r2 =>
        pDigitsExact 2 ((pChar ':' r2).getD r2)
    else none
  | [] => none

/-- Consumes the optional time block
`T\d{2}:\d{2}(:\d{2})?(\.\d+)?(Z|[+-]\d{2}:?\d{2})?` of the first date
pattern.  Each optional piece starts with a distinct character, so the
committed greedy choice agrees with the regex. -/
def pTimeBlock (cs : List Char) : Option (List Char) :=
  (pChar 'T' cs).bind fun r1 =>
  (pDigitsExact 2 r1).bind fun r2 =>
  (pChar ':' r2).bind fun r3 =>
  (pDigitsExact 2 r3).bind fun r4 =>
  let r5 := (((pChar ':' r4).bind (pDigitsExact 2)).getD r4)
  let r6 := (((pChar '.' r5).bind pDigitsPlus).getD r5)
  some (((pChar 'Z' r6) <|> pTZOffset r6).getD r6)

/-- The regex `^\d{4}-\d{2}-\d{2}(T…)?$` (ISO date, optional time). -/
def matchISOPattern (cs : List Char) : Bool :=
  match (pDigitsExact 4 cs).bind fun r1 =>
        (pChar '-' r1).bind fun r2 =>
        (pDigitsExact 2 r2).bind fun r3 =>
        (pChar '-' r3).bind fun r4 =>
        (pDigitsExact 2 r4).bind fun r5 =>
        some ((pTimeBlock r5).getD r5) with
  | some [] => true
  | _ => false

/-- The regex `^\d{2,4}/\d{2}/\d{2,4}$`. -/
def matchSlashPattern (cs : List Char) : Bool :=
  match (pDigitsRange 2 4 cs).bind fun r1 =>
        (pChar '/' r1).bind fun r2 =>
        (pDigitsExact 2 r2).bind fun r3 =>
        (pChar '/' r3).bind fun r4 =>
        pDigitsRange 2 4 r4 with
  | some [] => true
  | _ => false

/-- The regex `^\d{2}\.\d{2}\.\d{4}$` (dotted European date). -/
def matchDotPattern (cs : List Char) : Bool :=
  match (pDigitsExact 2 cs).bind fun r1 =>
        (pChar '.' r1).bind fun r2 =>
        (pDigitsExact 2 r2).bind fun r3 =>
        (pChar '.' r3).bind fun r4 =>
        pDigitsExact 4 r4 with
  | some [] => true
  | _ => false

/-- The regex `^\d{4}-\d{2}-\d{2}\s+\d{2}:\d{2}(:\d{2})?$`. -/
def matchSpacePattern (cs : List Char) : Bool :=
  match (pDigitsExact 4 cs).bind fun r1 =>
        (pChar '-' r1).bind fun r2 =>
        (pDigitsExact 2 r2).bind fun r3 =>
        (pChar '-' r3).bind fun r4 =>
        (pDigitsExact 2 r4).bind fun r5 =>
        (pSpaces1 r5).bind fun r6 =>
        (pDigitsExact 2 r6).bind fun r7 =>
        (pChar ':' r7).bind fun r8 =>
        (pDigitsExact 2 r8).bind fun r9 =>
        some (((pChar ':' r9).bind (pDigitsExact 2)).getD r9) with
  | some [] => true
  | _ => false

/-- `DATE_PATTERNS.some((re) => re.test(trimmed))`. -/
def matchesDatePattern (cs : List Char) : Bool :=
  matchISOPattern cs || matchSlashPattern cs || matchDotPattern cs || matchSpacePattern cs

/-- Gregorian leap-year rule. -/
def isLeapYear (y : Nat) : Bool :=
  (y % 4 == 0 && y % 100 != 0) || y % 400 == 0

/-- Days in a month of the proleptic Gregorian calendar. -/
def daysInMonth (y m : Nat) : Nat :=
  if m = 2 then (if isLeapYear y then 29 else 28)
  else if m = 4 ∨ m = 6 ∨ m = 9 ∨ m = 11 then 30
  else 31

/-- Calendar validity of a year-month-day triple. -/
def validYMD (y m d : Nat) : Bool :=
  decide (1 ≤ m ∧ m ≤ 12 ∧ 1 ≤ d ∧ d ≤ daysInMonth y m)

/-- Extracts year, month, day of a dash-formatted date prefix `yyyy-mm-dd…`. -/
def dashYMD? : List Char → Option (Nat × Nat × Nat)
  | y1 :: y2 :: y3 :: y4 :: '-' :: m1 :: m2 :: '-' :: d1 :: d2 :: _ =>
    some (digitsToNat [y1, y2, y3, y4], digitsToNat [m1, m2], digitsToNat [d1, d2])
  | _ => none

/-- Extracts the three digit groups of a slash-formatted date `a/b/c`. -/
def slashGroups? (cs : List Char) : Option (Nat × Nat × Nat) :=
  let (a, r1) := spanDigits cs
  match r1 with
  | '/' :: r2 =>
    let (b, r3) := spanDigits r2
    match r3 with
    | '/' :: r4 =>
      let (c, _) := spanDigits r4
      some (digitsToNat a, digitsToNat b, digitsToNat c)
    | _ => none
  | _ => none

/-- Modelled from the spec: the host runtime's generic `Date.parse` is not
part of this repository.  Per §4.7 a pattern-matching string still has to
"successfully resolve via a generic calendar-date parse"; dash-formatted
dates (ISO and space-separated datetime) resolve exactly when the calendar
date is valid, slash dates are read as month/day/year, and dotted
`dd.MM.yyyy` dates fail the generic parse on typical runtimes (the spec's
documented gap, preserved here). -/
def jsDateParseOK (s : String) : Bool :=
  let cs := s.data
  if matchDotPattern cs then false
  else if matchISOPattern cs || matchSpacePattern cs then
    match dashYMD? cs with
    | some (y, m, d) => validYMD y m d
    | none => false
  else if matchSlashPattern cs then
    match slashGroups? cs with
    | some (m, d, y) => validYMD y m d
    | none => false
  else false

/-- `isDateValue`: only strings can be dates; trim, reject empty, require a
pattern match and a successful generic date parse. -/
def isDateValue : Value → Bool
  | Value.vstr s =>
    let trimmed := jsTrim s
    if trimmed = "" then false
    else matchesDatePattern trimmed.data && jsDateParseOK trimmed
  | _ => false

/-! ## Column classification (`inferColumnTypes`) -/

/-- A column type: numeric, date, or string. -/
inductive ColType where
  | numeric : ColType
  | date : ColType
  | str : ColType
  deriving DecidableEq, Repr

/-- One element of the array `inferColumnTypes` returns. -/
structure ColumnDescriptor where
  name : String
  type : ColType
  index : Nat
  numericCount : Nat
  nonNullCount : Nat
  deriving DecidableEq, Repr

/-- The per-column counting loop of `inferColumnTypes`: walks the rows once,
returning `(numericCount, dateCount, nonNullCount)`.  A missing index
(`row[index]` undefined) is skipped like a null; a finite number counts as
numeric; otherwise a date-valued cell counts as a date. -/
def scanStep (index : Nat) (acc : Nat × Nat × Nat) (row : List Value) : Nat × Nat × Nat :=
  match row[index]? with
  | none => acc
  | some Value.vnull => acc
  | some (Value.vnum _) => (acc.1 + 1, acc.2.1, acc.2.2 + 1)
  | some (Value.vstr s) =>
    if isDateValue (Value.vstr s) then (acc.1, acc.2.1 + 1, acc.2.2 + 1)
    else (acc.1, acc.2.1, acc.2.2 + 1)

/-- The counting loop, folded over the rows. -/
def scanColumn (rows : List (List Value)) (index : Nat) : Nat × Nat × Nat :=
  rows.foldl (scanStep index) (0, 0, 0)

/-- `inferColumnTypes`: one descriptor per header name, classified by the
thresholds 0.9 (numeric, checked first) and 0.8 (date) over the non-null
cells; a column with no non-null cell is a string column.  (`jsRatio`'s
zero-denominator guard is inert here: both divisions sit under the
`nonNullCount > 0` test, as in the source.) -/
def inferColumnTypes (headerNames : List String) (rows : List (List Value)) :
    List ColumnDescriptor :=
  headerNames.enum.map fun p =>
    let index := p.1
    let name := p.2
    let counts := scanColumn rows index
    let numericCount := counts.1
    let dateCount := counts.2.1
    let nonNullCount := counts.2.2
    let type :=
      if 0 < nonNullCount then
        if ratioGE numericCount nonNullCount 9 10 then ColType.numeric
        else if ratioGE dateCount nonNullCount 8 10 then ColType.date
        else ColType.str
      else ColType.str
    ⟨name, type, index, numericCount, nonNullCount⟩

/-! ## Line preprocessing (`preprocessLines`) -/

/-- The result of `preprocessLines`. -/
structure PreprocessResult where
  commentHeaderLine : Option String
  dataLines : List String
  commentLinesSkipped : Nat
  deriving DecidableEq, Repr

/-- The trimmed-non-blank line sequence the preprocessor walks: split at the
line-ending conventions, drop lines that are empty after trimming. -/
def rawLines (text : String) : List String :=
  (jsSplitLines text).filter (fun l => !(jsTrim l == ""))

/-- The accumulator loop of `preprocessLines`.  While no data line has been
seen, each comment overwrites the candidate header line; afterwards comments
are only counted. -/
def preprocessAux : List String → Option String → List String → Nat → Bool → PreprocessResult
  | [], ch, acc, n, _ => ⟨ch, acc.reverse, n⟩
  | l :: rest, ch, acc, n, found =>
    if isCommentLine l then
      preprocessAux rest (if found then ch else some l) acc (n + 1) found
    else
      preprocessAux rest ch (l :: acc) n true

/-- `preprocessLines`: separates `#`-comment lines from data lines and keeps
the last pre-data comment as the candidate comment header. -/
def preprocessLines (text : String) : PreprocessResult :=
  preprocessAux (rawLines text) none [] 0 false

/-! ## The main pipeline (`parseCSV`) -/

/-- The typed error codes of `ParseError`. -/
inductive ErrCode where
  | NO_DATA : ErrCode
  | NO_DATA_ROWS : ErrCode
  | TOO_FEW_COLUMNS : ErrCode
  deriving DecidableEq, Repr

/-- The format profile attached to errors and to the result metadata. -/
structure FormatProfile where
  delimiter : String
  decimalSeparator : String
  hasHeader : Bool
  commentLinesSkipped : Nat
  deriving DecidableEq, Repr

/-- The `ParseError` payload: message, code, optional format profile. -/
structure ParseErr where
  message : String
  code : ErrCode
  metadata : Option FormatProfile
  deriving DecidableEq, Repr

/-- A structured warning pushed onto the result's `warnings` array.  (The
`tokenizerIssue` form mirrors the `warningParseError` entry fed from the
external tokenizer's error list; the modelled tokenizer reports no errors,
so it is never produced here.) -/
inductive Warning where
  | tokenizerIssue (message : String) : Warning
  | raggedRows (count : Nat) : Warning
  | noNumericColumns : Warning
  | missingValues (column : String) (count : Nat) : Warning
  | unparseable (column : String) (count : Nat) : Warning
  deriving DecidableEq, Repr

/-- The successful parse result. -/
structure ParsedTable where
  columns : List ColumnDescriptor
  data : List (List Value)
  rowCount : Nat
  preview : List (List Value)
  warnings : List Warning
  metadata : FormatProfile
  originalFileName : Option String
  deriving DecidableEq

/-- The caller-supplied overrides `{ delimiter?, decimal?, hasHeader? }`. -/
structure Overrides where
  delimiter : Option String
  decimal : Option String
  hasHeader : Option String
  deriving DecidableEq, Repr

/-- No overrides: every stage auto-detects. -/
def noOverrides : Overrides := ⟨none, none, none⟩

/-- The truthiness test `overrides.x && overrides.x !== 'auto'`: an absent,
empty (falsy) or `"auto"` override routes to the detector. -/
def useOverride : Option String → Option String
  | some v => if v = "" ∨ v = "auto" then none else some v
  | none => none

/-- The delimiter `parseCSV` resolves: override, or auto-detection. -/
def resolvedDelimiter (text : String) (ov : Overrides) : String :=
  match useOverride ov.delimiter with
  | some v => v
  | none => autoDetectDelimiter (preprocessLines text).dataLines

/-- The decimal separator `parseCSV` resolves: override, or the mapping from
the resolved delimiter. -/
def resolvedDecimalSep (text : String) (ov : Overrides) : String :=
  match useOverride ov.decimal with
  | some v => v
  | none => detectDecimalSeparator (resolvedDelimiter text ov)

/-- `commentHeaderLine.replace(/^#\s*/, '')`: the regex is anchored, so the
rewrite fires only when `#` is the very first character, and it removes that
single `#` together with the whitespace right after it. -/
def stripHashComment (s : String) : String :=
  match s.data with
  | '#' :: rest => ⟨rest.dropWhile Char.isWhitespace⟩
  | _ => s

/-- The header/row split `parseCSV` settles on. -/
structure HeaderResolution where
  headerNames : List String
  rowLines : List String
  hasHeaderDetected : Bool
  commentIsHeader : Bool
  deriving DecidableEq, Repr

/-- The synthetic names `Column 1`, `Column 2`, … used when no header row is
present. -/
def syntheticNames (colCount : Nat) : List String :=
  (List.range colCount).map fun i => "Column " ++ toString (i + 1)

/-- Step 4 of `parseCSV`: a comment line whose field count matches the first
data line becomes the header with every data line kept as a row; otherwise
the override or `detectHeader` decides whether the first data line is a
header (consumed) or data (kept, with synthetic column names). -/
def resolveHeader (commentHeaderLine : Option String) (dataLines : List String)
    (delimiter decimalSep : String) (hasHeaderOverride : Option String) :
    HeaderResolution :=
  let firstLine := dataLines.headD ""
  let commentCase : Option HeaderResolution :=
    match commentHeaderLine with
    | none => none
    | some ch =>
      let commentFields := (jsSplitOn delimiter (stripHashComment ch)).map jsTrim
      let dataColCount := (jsSplitOn delimiter firstLine).length
      if commentFields.length = dataColCount then
        some ⟨commentFields, dataLines, true, true⟩
      else none
  match commentCase with
  | some r => r
  | none =>
    let hasHeaderDetected :=
      match useOverride hasHeaderOverride with
      | some v => v == "true"
      | none => detectHeader firstLine dataLines.tail delimiter decimalSep
    if hasHeaderDetected then
      ⟨(jsSplitOn delimiter firstLine).map jsTrim, dataLines.tail, true, false⟩
    else
      ⟨syntheticNames (jsSplitOn delimiter firstLine).length, dataLines, false, false⟩

/-- The header resolution `parseCSV` computes for a given input. -/
def resolvedHeader (text : String) (ov : Overrides) : HeaderResolution :=
  resolveHeader (preprocessLines text).commentHeaderLine (preprocessLines text).dataLines
    (resolvedDelimiter text ov) (resolvedDecimalSep text ov) ov.hasHeader

/-- Modelled from the spec: the external cell tokenizer (§4.5, supplied by a
general-purpose delimited-text library) splits each retained line into raw
string cells by the delimiter, skipping blank lines; the row lines handed to
it are never blank, and quoting does not occur in the pipeline's inputs, so
the contract reduces to a per-line split. -/
def tokenizeRows (delimiter : String) (rowLines : List String) : List (List String) :=
  rowLines.map fun l => jsSplitOn delimiter l

/-- Ragged-row rejection: keep exactly the rows whose field count equals the
header's field count. -/
def filterRagged (expectedCols : Nat) (rows : List (List String)) : List (List String) :=
  rows.filter fun r => r.length == expectedCols

/-- Step 6 of `parseCSV`: when the decimal separator is the comma, rewrite
every comma of every (string) cell to a dot. -/
def normalizeRows (decimalSeparator : String) (rows : List (List String)) :
    List (List String) :=
  if decimalSeparator = "," then rows.map (fun r => r.map replaceCommasWithDots) else rows

/-- The per-cell conversion of step 7 of `parseCSV`: null/undefined stays
null, a blank string becomes null, a numeric string becomes its number, any
other string is kept as its trimmed self. -/
def convertCell : Option String → Value
  | none => Value.vnull
  | some c =>
    let str := jsTrim c
    if str = "" then Value.vnull
    else
      match jsNumber? str with
      | some q => Value.vnum q
      | none => Value.vstr str

/-- Step 7 of `parseCSV` over all rows (every tokenized cell is a string). -/
def convertRows (rows : List (List String)) : List (List Value) :=
  rows.map fun r => r.map fun c => convertCell (some c)

/-- The per-column missing-value warnings (a cell is missing when it is
null; an absent cell — `row[index]` undefined — is not `=== null`). -/
def missingValueWarnings (columns : List ColumnDescriptor) (rows : List (List Value)) :
    List Warning :=
  columns.filterMap fun col =>
    let nullCount := (rows.filter fun row => row[col.index]? == some Value.vnull).length
    if 0 < nullCount then some (Warning.missingValues col.name nullCount) else none

/-- The per-column warnings about string values surviving in a column that
classified numeric. -/
def unparseableWarnings (columns : List ColumnDescriptor) (rows : List (List Value)) :
    List Warning :=
  columns.filterMap fun col =>
    if col.type == ColType.numeric then
      let stringCount :=
        (rows.filter fun row =>
          match row[col.index]? with
          | some (Value.vstr _) => true
          | _ => false).length
      if 0 < stringCount then some (Warning.unparseable col.name stringCount) else none
    else none

/-- Step 5: the tokenized rows of the resolved row lines. -/
def parsedRowsOf (text : String) (ov : Overrides) : List (List String) :=
  tokenizeRows (resolvedDelimiter text ov) (resolvedHeader text ov).rowLines

/-- Step 5: the tokenized rows surviving ragged-row rejection (the expected
column count is the header's field count). -/
def keptRowsOf (text : String) (ov : Overrides) : List (List String) :=
  filterRagged (resolvedHeader text ov).headerNames.length (parsedRowsOf text ov)

/-- Steps 6–7: the converted rows of the table. -/
def pipelineRows (text : String) (ov : Overrides) : List (List Value) :=
  convertRows (normalizeRows (resolvedDecimalSep text ov) (keptRowsOf text ov))

/-- Step 8: the classified columns. -/
def pipelineColumns (text : String) (ov : Overrides) : List ColumnDescriptor :=
  inferColumnTypes (resolvedHeader text ov).headerNames (pipelineRows text ov)

/-- The ragged-rows warning (present exactly when rows were dropped, with
the dropped count). -/
def raggedWarningsOf (text : String) (ov : Overrides) : List Warning :=
  if (keptRowsOf text ov).length < (parsedRowsOf text ov).length then
    [Warning.raggedRows ((parsedRowsOf text ov).length - (keptRowsOf text ov).length)]
  else []

/-- The warning for the absence of any numeric column. -/
def noNumericWarningsOf (text : String) (ov : Overrides) : List Warning :=
  if (pipelineColumns text ov).any (fun c => c.type == ColType.numeric) then []
  else [Warning.noNumericColumns]

/-- The full warning list of a successful parse, in push order. -/
def pipelineWarningsOf (text : String) (ov : Overrides) : List Warning :=
  raggedWarningsOf text ov ++ noNumericWarningsOf text ov ++
    missingValueWarnings (pipelineColumns text ov) (pipelineRows text ov) ++
    unparseableWarnings (pipelineColumns text ov) (pipelineRows text ov)

/-- The format profile attached to errors and to the result metadata. -/
def profileOf (text : String) (ov : Overrides) : FormatProfile :=
  ⟨resolvedDelimiter text ov, resolvedDecimalSep text ov,
    (resolvedHeader text ov).hasHeaderDetected, (preprocessLines text).commentLinesSkipped⟩

/-- `parseCSV`: the full pipeline, from raw text and overrides to a parsed
table or a typed error.  Each stage is the named definition above; the three
guards are the source's three `throw new ParseError(...)` sites, in order. -/
def parseCSV (text : String) (ov : Overrides) : Except ParseErr ParsedTable :=
  if (preprocessLines text).dataLines = [] then
    Except.error ⟨"The file contains no data rows.", ErrCode.NO_DATA, none⟩
  else if (resolvedHeader text ov).rowLines = [] then
    Except.error ⟨"The file contains headers but no data rows.", ErrCode.NO_DATA_ROWS,
      some (profileOf text ov)⟩
  else if (pipelineColumns text ov).length < 2 then
    Except.error ⟨"Only one column was detected. A chart needs at least two columns (one for X and one for Y).",
      ErrCode.TOO_FEW_COLUMNS, some (profileOf text ov)⟩
  else
    Except.ok
      ⟨pipelineColumns text ov, pipelineRows text ov, (pipelineRows text ov).length,
        (pipelineRows text ov).take 20, pipelineWarningsOf text ov, profileOf text ov, none⟩

/-- The error code of a pipeline outcome, if it failed. -/
def errCode? (r : Except ParseErr ParsedTable) : Option ErrCode :=
  match r with
  | Except.error e => some e.code
  | Except.ok _ => none

/-- The table of a pipeline outcome, if it succeeded. -/
def okTable? (r : Except ParseErr ParsedTable) : Option ParsedTable :=
  match r with
  | Except.error _ => none
  | Except.ok t => some t

/-- A placeholder table (used only to state closed corollaries via `getD`). -/
def emptyTable : ParsedTable :=
  ⟨[], [], 0, [], [], ⟨",", ".", false, 0⟩, none⟩

/-! ## Supporting lemmas -/

theorem getLast?_cons_eq {α : Type} (a : α) (xs : List α) :
    (a :: xs).getLast? = match xs.getLast? with
      | some x => some x
      | none => some a := by
  induction xs generalizing a with
  | nil => rfl
  | cons b ys _ =>
    rw [List.getLast?_cons_cons]
    cases h : (b :: ys).getLast? with
    | none => simp [List.getLast?_eq_none_iff] at h
    | some x => rfl

/-- The last comment of the initial comment run, defaulting to `ch`. -/
def lastCommentOr (ls : List String) (ch : Option String) : Option String :=
  match (ls.takeWhile isCommentLine).getLast? with
  | some l => some l
  | none => ch

theorem preprocessAux_spec (ls : List String) :
    ∀ (ch : Option String) (acc : List String) (n : Nat) (found : Bool),
      preprocessAux ls ch acc n found =
        ⟨if found then ch else lastCommentOr ls ch,
         acc.reverse ++ ls.filter (fun l => !(isCommentLine l)),
         n + ls.countP isCommentLine⟩ := by
  induction ls with
  | nil =>
    intro ch acc n found
    simp [preprocessAux, lastCommentOr]
  | cons l rest ih =>
    intro ch acc n found
    by_cases hc : isCommentLine l
    · rw [preprocessAux, if_pos hc, ih]
      simp only [PreprocessResult.mk.injEq]
      refine ⟨?_, ?_, ?_⟩
      · cases found with
        | true => simp
        | false =>
          simp only [if_neg Bool.false_ne_true, lastCommentOr, List.takeWhile_cons, hc,
            if_true]
          rw [getLast?_cons_eq]
          cases h : (rest.takeWhile isCommentLine).getLast? <;> simp [h]
      · simp [List.filter_cons, hc]
      · simp [List.countP_cons, hc]
        omega
    · rw [preprocessAux, if_neg hc, ih]
      simp only [PreprocessResult.mk.injEq]
      refine ⟨?_, ?_, ?_⟩
      · have : lastCommentOr (l :: rest) ch = ch := by
          simp only [lastCommentOr, List.takeWhile_cons, hc]
          rfl
        rw [this]
        cases found <;> simp
      · simp [List.filter_cons, hc]
      · simp [List.countP_cons, hc]

theorem countP_add_countP_not {α : Type} (p : α → Bool) (l : List α) :
    l.countP p + l.countP (fun a => !(p a)) = l.length := by
  induction l with
  | nil => simp
  | cons a t ih =>
    by_cases h : p a <;> simp [List.countP_cons, h] <;> omega

/-- C9: `preprocessLines` partitions the retained lines — the comment count
plus the data-line count equals the raw-line count, the data lines are
exactly the non-comment lines in order, the function is total (it is a Lean
function, and in particular an all-comment or empty input just yields an
empty `dataLines`), and `commentHeaderLine` is exactly the last `#`-prefixed
line strictly before the first non-comment line (`none` when there is none),
unaffected by later comments. -/
theorem preprocessLines_partition (text : String) :
    (preprocessLines text).commentLinesSkipped + (preprocessLines text).dataLines.length
        = (rawLines text).length ∧
    (preprocessLines text).dataLines
        = (rawLines text).filter (fun l => !(isCommentLine l)) ∧
    (preprocessLines text).commentHeaderLine
        = ((rawLines text).takeWhile isCommentLine).getLast? ∧
    ((∀ l ∈ rawLines text, isCommentLine l = true) → (preprocessLines text).dataLines = []) := by
  have h : preprocessLines text = preprocessAux (rawLines text) none [] 0 false := rfl
  rw [h, preprocessAux_spec]
  simp only [List.reverse_nil, List.nil_append, if_neg Bool.false_ne_true, Nat.zero_add]
  refine ⟨?_, trivial, ?_, ?_⟩
  · rw [← List.countP_eq_length_filter]
    exact countP_add_countP_not isCommentLine (rawLines text)
  · rw [lastCommentOr]
    cases hg : ((rawLines text).takeWhile isCommentLine).getLast? <;> simp [hg]
  · intro hall
    rw [List.filter_eq_nil_iff]
    intro a ha
    simp [hall a ha]

theorem preprocessLines_partition_witness : (preprocessLines "#a\n#b").dataLines = [] :=
  (preprocessLines_partition "#a\n#b").2.2.2 (by decide)

/-! ## Column-count bookkeeping for classification -/

/-- The cells present at a column index, in row order (`row[index]`,
skipping rows too short to have that index). -/
def columnCells (rows : List (List Value)) (index : Nat) : List Value :=
  rows.filterMap fun row => row[index]?

/-- Non-null cell count of a column: the denominator of both type ratios. -/
def specNonNullCount (rows : List (List Value)) (index : Nat) : Nat :=
  ((columnCells rows index).filter fun v => !(v == Value.vnull)).length

/-- Numeric cell count of a column. -/
def specNumericCount (rows : List (List Value)) (index : Nat) : Nat :=
  ((columnCells rows index).filter fun v =>
    match v with
    | Value.vnum _ => true
    | _ => false).length

/-- Date cell count of a column. -/
def specDateCount (rows : List (List Value)) (index : Nat) : Nat :=
  ((columnCells rows index).filter isDateValue).length

theorem scanColumn_foldl (i : Nat) (rows : List (List Value)) :
    ∀ acc : Nat × Nat × Nat,
      rows.foldl (scanStep i) acc =
        (acc.1 + specNumericCount rows i, acc.2.1 + specDateCount rows i,
          acc.2.2 + specNonNullCount rows i) := by
  induction rows with
  | nil =>
    intro acc
    simp [specNumericCount, specDateCount, specNonNullCount, columnCells]
  | cons row rest ih =>
    intro acc
    rw [List.foldl_cons, ih]
    rcases hv : row[i]? with _ | v
    · simp [scanStep, hv, specNumericCount, specDateCount, specNonNullCount, columnCells,
        List.filterMap_cons]
    · rcases v with _ | q | s
      · simp [scanStep, hv, specNumericCount, specDateCount, specNonNullCount, columnCells,
          List.filterMap_cons, List.filter_cons, isDateValue]
      · simp [scanStep, hv, specNumericCount, specDateCount, specNonNullCount, columnCells,
          List.filterMap_cons, List.filter_cons, isDateValue, Prod.ext_iff]
        try omega
      · by_cases hd : isDateValue (Value.vstr s) <;>
          simp [scanStep, hv, hd, specNumericCount, specDateCount, specNonNullCount,
            columnCells, List.filterMap_cons, List.filter_cons, Prod.ext_iff] <;>
          try omega

theorem scanColumn_eq (rows : List (List Value)) (i : Nat) :
    scanColumn rows i =
      (specNumericCount rows i, specDateCount rows i, specNonNullCount rows i) := by
  rw [scanColumn, scanColumn_foldl]
  simp

theorem inferColumnTypes_length (headerNames : List String) (rows : List (List Value)) :
    (inferColumnTypes headerNames rows).length = headerNames.length := by
  simp [inferColumnTypes]

/-- The classification rule as the specification states it, over the
filter-based column counts: numeric at ratio ≥ 0.9 over non-null cells
(checked before date), else date at ratio ≥ 0.8, else string; an all-null
column is a string column. -/
def classifyOf (rows : List (List Value)) (i : Nat) : ColType :=
  if 0 < specNonNullCount rows i then
    if ratioGE (specNumericCount rows i) (specNonNullCount rows i) 9 10 then ColType.numeric
    else if ratioGE (specDateCount rows i) (specNonNullCount rows i) 8 10 then ColType.date
    else ColType.str
  else ColType.str

/-- C1: every column descriptor `inferColumnTypes` produces is classified by
the ratio of numeric (resp. date) cells over the non-null cells of that
column only — nulls count in neither numerator nor denominator — with the
numeric 0.9 test before the date 0.8 test and string as the fallback, and an
all-null column classifying as string.  Concretely, a column with 90 numeric
cells among 100 non-null ones is numeric, with 89 it is a string column, and
the column alternating `1, null, …, 5, null` is numeric because its ratio is
computed over the 5 non-null cells. -/
theorem inferColumnTypes_spec :
    (∀ (headerNames : List String) (rows : List (List Value)) (i : Nat)
        (c : ColumnDescriptor),
        (inferColumnTypes headerNames rows)[i]? = some c →
          c.type = classifyOf rows i ∧
          c.numericCount = specNumericCount rows i ∧
          c.nonNullCount = specNonNullCount rows i ∧
          c.index = i) ∧
    inferColumnTypes ["v"]
        (List.replicate 90 [Value.vnum 1] ++ List.replicate 10 [Value.vstr "x"])
        = [⟨"v", ColType.numeric, 0, 90, 100⟩] ∧
    inferColumnTypes ["v"]
        (List.replicate 89 [Value.vnum 1] ++ List.replicate 11 [Value.vstr "x"])
        = [⟨"v", ColType.str, 0, 89, 100⟩] ∧
    inferColumnTypes ["v"]
        [[Value.vnum 1], [Value.vnull], [Value.vnum 2], [Value.vnull], [Value.vnum 3],
          [Value.vnull], [Value.vnum 4], [Value.vnull], [Value.vnum 5], [Value.vnull]]
        = [⟨"v", ColType.numeric, 0, 5, 5⟩] ∧
    inferColumnTypes ["v"] [[Value.vnull], [Value.vnull]]
        = [⟨"v", ColType.str, 0, 0, 0⟩] := by
  refine ⟨?_, by decide, by decide, by decide, by decide⟩
  intro hn rows i c h
  simp only [inferColumnTypes, List.getElem?_map, List.getElem?_enum] at h
  rcases hname : hn[i]? with _ | name
  · rw [hname] at h
    simp at h
  · rw [hname] at h
    simp only [Option.map_some'] at h
    have hc := Option.some.inj h
    subst hc
    simp only [classifyOf, scanColumn_eq]
    exact ⟨trivial, trivial, trivial, trivial⟩

theorem inferColumnTypes_spec_witness :
    (⟨"v", ColType.numeric, 0, 5, 5⟩ : ColumnDescriptor).type =
        classifyOf
          [[Value.vnum 1], [Value.vnull], [Value.vnum 2], [Value.vnull], [Value.vnum 3],
            [Value.vnull], [Value.vnum 4], [Value.vnull], [Value.vnum 5], [Value.vnull]] 0 ∧
      (⟨"v", ColType.numeric, 0, 5, 5⟩ : ColumnDescriptor).numericCount =
        specNumericCount
          [[Value.vnum 1], [Value.vnull], [Value.vnum 2], [Value.vnull], [Value.vnum 3],
            [Value.vnull], [Value.vnum 4], [Value.vnull], [Value.vnum 5], [Value.vnull]] 0 ∧
      (⟨"v", ColType.numeric, 0, 5, 5⟩ : ColumnDescriptor).nonNullCount =
        specNonNullCount
          [[Value.vnum 1], [Value.vnull], [Value.vnum 2], [Value.vnull], [Value.vnum 3],
            [Value.vnull], [Value.vnum 4], [Value.vnull], [Value.vnum 5], [Value.vnull]] 0 ∧
      (⟨"v", ColType.numeric, 0, 5, 5⟩ : ColumnDescriptor).index = 0 :=
  inferColumnTypes_spec.1 ["v"]
    [[Value.vnum 1], [Value.vnull], [Value.vnum 2], [Value.vnull], [Value.vnum 3],
      [Value.vnull], [Value.vnum 4], [Value.vnull], [Value.vnum 5], [Value.vnull]] 0
    ⟨"v", ColType.numeric, 0, 5, 5⟩ (by decide)

/-- C5 counterexample: the conversion pass does not return the original
string unchanged on parse failure — it returns the trimmed string.  The
padded cell `" abc "` converts to the string `"abc"`, and such padded cells
do reach the pass (a comma-split line keeps the cell's inner padding). -/
theorem convertCell_counterexample :
    convertCell (some " abc ") = Value.vstr "abc" ∧
    Value.vstr "abc" ≠ Value.vstr " abc " ∧
    (okTable? (parseCSV "a,b\n1, x y " noOverrides)).map
        (fun t => t.data.map fun r => r[1]?) = some [some (Value.vstr "x y")] :=
  ⟨by decide, by decide, by decide⟩

/-- C5 (amended): the per-cell conversion is a total function with the
cases: null/undefined stays null, an empty or whitespace-only string becomes
null, a string whose trimmed form parses as a number becomes that number,
and any other string is preserved as its trimmed form (trimmed, not
byte-identical — the only amendment the counterexample forces). -/
theorem convertCell_cases (s : String) :
    convertCell none = Value.vnull ∧
    (jsTrim s = "" → convertCell (some s) = Value.vnull) ∧
    (∀ q : ℚ, jsNumber? (jsTrim s) = some q → convertCell (some s) = Value.vnum q) ∧
    (jsTrim s ≠ "" → jsNumber? (jsTrim s) = none →
      convertCell (some s) = Value.vstr (jsTrim s)) := by
  refine ⟨rfl, ?_, ?_, ?_⟩
  · intro h
    simp [convertCell, h]
  · intro q hq
    by_cases h : jsTrim s = ""
    · rw [h] at hq
      have hnone : jsNumber? "" = none := by decide
      rw [hnone] at hq
      cases hq
    · simp [convertCell, h, hq]
  · intro h hn
    simp [convertCell, h, hn]

theorem convertCell_cases_witness :
    convertCell (some " abc ") = Value.vstr (jsTrim " abc ") :=
  (convertCell_cases " abc ").2.2.2 (by decide) (by decide)

/-- C6: the decimal-separator resolver maps semicolon to comma and every
other delimiter to dot, and under the induced conventions the composed
normalize-then-convert passes send the cell `"-1930,532345"` to the number
`-1930.532345` for a semicolon-delimited file, while for a comma-delimited
file no comma-to-dot rewrite happens and the cell stays that very string. -/
theorem decimalSeparator_roundTrip :
    detectDecimalSeparator ";" = "," ∧
    (∀ d : String, d ≠ ";" → detectDecimalSeparator d = ".") ∧
    convertRows (normalizeRows (detectDecimalSeparator ";") [["-1930,532345"]])
        = [[Value.vnum (-1930.532345 : ℚ)]] ∧
    convertRows (normalizeRows (detectDecimalSeparator ",") [["-1930,532345"]])
        = [[Value.vstr "-1930,532345"]] := by
  refine ⟨rfl, ?_, ?_, by decide⟩
  · intro d hd
    simp [detectDecimalSeparator, hd]
  · have hnorm : normalizeRows (detectDecimalSeparator ";") [["-1930,532345"]]
        = [["-1930.532345"]] := by decide
    rw [hnorm]
    have hcell : convertCell (some "-1930.532345")
        = Value.vnum (partsToRat ⟨true, 1930, 532345, 6, false, 0⟩) := by
      have h1 : jsTrim "-1930.532345" = "-1930.532345" := by decide
      have h2 : parseNumParts "-1930.532345" = some ⟨true, 1930, 532345, 6, false, 0⟩ := by
        decide
      simp [convertCell, h1, jsNumber?, h2]
    simp only [convertRows, List.map_cons, List.map_nil, hcell]
    have hval : partsToRat ⟨true, 1930, 532345, 6, false, 0⟩ = (-1930.532345 : ℚ) := by
      norm_num [partsToRat]
    rw [hval]

theorem decimalSeparator_roundTrip_witness : detectDecimalSeparator "," = "." :=
  decimalSeparator_roundTrip.2.1 "," (by decide)

/-- C7: `detectHeader` evaluates its rules in order — header when the
sampled data lines are mostly numeric and the candidate is mostly not, else
no header when the candidate is at least half numeric, else header by
default (equivalently: the answer is `false` exactly when the candidate's
numeric ratio is at least 0.5); a fully non-numeric candidate with fully
non-numeric rows yields a header, and a single-line file (no rows beyond
the candidate) always yields a header. -/
theorem detectHeader_rules :
    (∀ (candidateLine delimiter decimalSep : String),
        detectHeader candidateLine [] delimiter decimalSep = true) ∧
    (∀ (candidateLine : String) (dataLines : List String) (delimiter decimalSep : String),
        dataLines ≠ [] →
          detectHeader candidateLine dataLines delimiter decimalSep =
            (if ratioGT ((sampleDataCells delimiter dataLines).filter
                    (fun cell => isNumericCell cell decimalSep)).length
                  (sampleDataCells delimiter dataLines).length 5 10 ∧
                ratioLT ((lineCells delimiter candidateLine).filter
                    (fun cell => isNumericCell cell decimalSep)).length
                  (lineCells delimiter candidateLine).length 5 10
             then true
             else if ratioGE ((lineCells delimiter candidateLine).filter
                    (fun cell => isNumericCell cell decimalSep)).length
                  (lineCells delimiter candidateLine).length 5 10
             then false
             else true)) ∧
    (∀ (candidateLine : String) (dataLines : List String) (delimiter decimalSep : String),
        dataLines ≠ [] →
          (detectHeader candidateLine dataLines delimiter decimalSep = false ↔
            ratioGE ((lineCells delimiter candidateLine).filter
                (fun cell => isNumericCell cell decimalSep)).length
              (lineCells delimiter candidateLine).length 5 10)) ∧
    detectHeader "foo,bar,baz" ["alpha,beta,gamma", "delta,epsilon,zeta"] "," "." = true := by
  refine ⟨?_, ?_, ?_, by decide⟩
  · intro c d s
    rfl
  · intro c ds d s h
    simp only [detectHeader, if_neg h]
  · intro c ds d s h
    simp only [detectHeader, if_neg h]
    constructor
    · intro hf
      by_cases hC : ratioGE ((lineCells d c).filter
          (fun cell => isNumericCell cell s)).length (lineCells d c).length 5 10
      · exact hC
      · exfalso
        rw [if_neg hC] at hf
        split at hf <;> cases hf
    · intro hC
      have hB : ¬ ratioLT ((lineCells d c).filter
          (fun cell => isNumericCell cell s)).length (lineCells d c).length 5 10 :=
        not_lt.mpr hC
      rw [if_neg (fun hab => hB hab.2), if_pos hC]

theorem detectHeader_rules_witness : detectHeader "1,2" ["3,4"] "," "." = false :=
  (detectHeader_rules.2.2.1 "1,2" ["3,4"] "," "." (by decide)).mpr (by decide)

/-- C4 counterexample: a pre-data comment line with whitespace before its
`#` is adopted as the header (field counts match), yet the anchored strip
`replace(/^#\s*/, '')` does not fire, so the adopted first column name
`"#a"` retains a leading `#` — refuting "adopted header names never retain
a leading '#'".  The comment really is adopted: both data lines survive as
rows. -/
theorem commentHeader_counterexample :
    (okTable? (parseCSV "  #a;b\n1;2\n3;4" noOverrides)).map
        (fun t => t.columns.map fun c => c.name) = some ["#a", "b"] ∧
    (okTable? (parseCSV "  #a;b\n1;2\n3;4" noOverrides)).map (fun t => t.rowCount)
        = some 2 ∧
    "#a".data.head? = some '#' :=
  ⟨by decide, by decide, by decide⟩

/-- C4 (amended): the comment-header path strips one leading `#` and the
whitespace right after it, but only when `#` is the line's very first
character (the regex is anchored; a comment with whitespace before the `#`,
or a second `#`, keeps the surplus, so an adopted name can retain a leading
`#`); splitting the stripped line by the resolved delimiter and trimming
each field, the result is adopted as the header exactly when its field
count equals that of the first data line, in which case every data line
stays a data row; on a mismatch the comment is ignored and header detection
proceeds as if there were no comment line. -/
theorem resolveHeader_comment_spec (ch : String) (dataLines : List String)
    (delimiter decimalSep : String) (ovh : Option String) :
    (ch.data.head? = some '#' →
      stripHashComment ch = ⟨ch.data.tail.dropWhile Char.isWhitespace⟩) ∧
    (ch.data.head? ≠ some '#' → stripHashComment ch = ch) ∧
    (((jsSplitOn delimiter (stripHashComment ch)).map jsTrim).length
          = (jsSplitOn delimiter (dataLines.headD "")).length →
        resolveHeader (some ch) dataLines delimiter decimalSep ovh
          = ⟨(jsSplitOn delimiter (stripHashComment ch)).map jsTrim, dataLines, true, true⟩) ∧
    (((jsSplitOn delimiter (stripHashComment ch)).map jsTrim).length
          ≠ (jsSplitOn delimiter (dataLines.headD "")).length →
        resolveHeader (some ch) dataLines delimiter decimalSep ovh
          = resolveHeader none dataLines delimiter decimalSep ovh) := by
  refine ⟨?_, ?_, ?_, ?_⟩
  · intro h
    rcases hd : ch.data with _ | ⟨c, rest⟩
    · rw [hd] at h
      cases h
    · rw [hd] at h
      have hc : c = '#' := by
        simpa using h
      subst hc
      simp [stripHashComment, hd]
  · intro h
    rcases hd : ch.data with _ | ⟨c, rest⟩
    · simp [stripHashComment, hd]
    · rw [hd] at h
      have hc : c ≠ '#' := by
        intro hc
        exact h (by rw [hc]; rfl)
      simp [stripHashComment, hd, hc]
  · intro hlen
    simp only [resolveHeader, if_pos hlen]
  · intro hlen
    simp only [resolveHeader, if_neg hlen]

theorem resolveHeader_comment_spec_witness :
    resolveHeader (some "#p;q") ["1;2"] ";" "," none
      = ⟨["p", "q"], ["1;2"], true, true⟩ := by
  have h := (resolveHeader_comment_spec "#p;q" ["1;2"] ";" "," none).2.2.1 (by decide)
  exact h.trans (by decide)

theorem parseCSV_ok_fields (text : String) (ov : Overrides) (t : ParsedTable)
    (h : okTable? (parseCSV text ov) = some t) :
    t.columns = pipelineColumns text ov ∧
    t.data = pipelineRows text ov ∧
    t.rowCount = t.data.length ∧
    t.preview = t.data.take 20 ∧
    t.warnings = pipelineWarningsOf text ov := by
  by_cases h1 : (preprocessLines text).dataLines = []
  · simp [parseCSV, okTable?, h1] at h
  · by_cases h2 : (resolvedHeader text ov).rowLines = []
    · simp [parseCSV, okTable?, h1, h2] at h
    · by_cases h3 : (pipelineColumns text ov).length < 2
      · simp [parseCSV, okTable?, h1, h2, h3] at h
      · simp only [parseCSV, okTable?, if_neg h1, if_neg h2, if_neg h3] at h
        have ht := Option.some.inj h
        subst ht
        exact ⟨rfl, rfl, rfl, rfl, rfl⟩

theorem parseCSV_error_iff (text : String) (ov : Overrides) :
    (errCode? (parseCSV text ov) = some ErrCode.NO_DATA ↔
      (preprocessLines text).dataLines = []) ∧
    (errCode? (parseCSV text ov) = some ErrCode.NO_DATA_ROWS ↔
      ((preprocessLines text).dataLines ≠ [] ∧ (resolvedHeader text ov).rowLines = [])) ∧
    (errCode? (parseCSV text ov) = some ErrCode.TOO_FEW_COLUMNS ↔
      ((preprocessLines text).dataLines ≠ [] ∧ (resolvedHeader text ov).rowLines ≠ [] ∧
        (resolvedHeader text ov).headerNames.length < 2)) ∧
    ((okTable? (parseCSV text ov)).isSome = true ↔
      ((preprocessLines text).dataLines ≠ [] ∧ (resolvedHeader text ov).rowLines ≠ [] ∧
        ¬ (resolvedHeader text ov).headerNames.length < 2)) := by
  have hlen : (pipelineColumns text ov).length = (resolvedHeader text ov).headerNames.length :=
    inferColumnTypes_length _ _
  by_cases h1 : (preprocessLines text).dataLines = []
  · simp [parseCSV, errCode?, okTable?, h1]
  · by_cases h2 : (resolvedHeader text ov).rowLines = []
    · simp [parseCSV, errCode?, okTable?, h1, h2]
    · by_cases h3 : (resolvedHeader text ov).headerNames.length < 2
      · simp [parseCSV, errCode?, okTable?, h1, h2, hlen, h3]
      · simp [parseCSV, errCode?, okTable?, h1, h2, hlen, h3]

theorem resolveHeader_rowLines_cases (chl : Option String) (dls : List String)
    (delim ds : String) (ovh : Option String) :
    (resolveHeader chl dls delim ds ovh).rowLines = dls ∨
    ((resolveHeader chl dls delim ds ovh).rowLines = dls.tail ∧
      (resolveHeader chl dls delim ds ovh).hasHeaderDetected = true) := by
  rcases chl with _ | ch
  · simp only [resolveHeader]
    split
    · right
      exact ⟨rfl, rfl⟩
    · left
      rfl
  · simp only [resolveHeader]
    split
    · rename_i r heq
      left
      split at heq
      · have hr := Option.some.inj heq
        subst hr
        rfl
      · cases heq
    · split
      · right
        exact ⟨rfl, rfl⟩
      · left
        rfl

theorem filterRagged_length (ec : Nat) (rs : List (List String)) :
    ∀ r ∈ filterRagged ec rs, r.length = ec := by
  intro r hr
  rw [filterRagged] at hr
  have := (List.mem_filter.mp hr).2
  exact beq_iff_eq.mp this

theorem pipelineRows_length (text : String) (ov : Overrides) :
    ∀ row ∈ pipelineRows text ov, row.length = (resolvedHeader text ov).headerNames.length := by
  intro row hrow
  rw [pipelineRows, convertRows] at hrow
  obtain ⟨r, hr, rfl⟩ := List.mem_map.mp hrow
  rw [List.length_map]
  rw [normalizeRows] at hr
  by_cases hd : resolvedDecimalSep text ov = ","
  · rw [if_pos hd] at hr
    obtain ⟨r2, hr2, rfl⟩ := List.mem_map.mp hr
    rw [List.length_map]
    exact filterRagged_length _ _ r2 hr2
  · rw [if_neg hd] at hr
    exact filterRagged_length _ _ r hr

theorem noNumericWarningsOf_shape (text : String) (ov : Overrides) :
    ∀ w ∈ noNumericWarningsOf text ov, w = Warning.noNumericColumns := by
  intro w hw
  rw [noNumericWarningsOf] at hw
  split at hw
  · cases hw
  · simpa using hw

theorem missingValueWarnings_shape (cols : List ColumnDescriptor) (rows : List (List Value)) :
    ∀ w ∈ missingValueWarnings cols rows, ∃ s k, w = Warning.missingValues s k := by
  intro w hw
  rw [missingValueWarnings] at hw
  obtain ⟨col, -, hcol⟩ := List.mem_filterMap.mp hw
  have hcol2 : (if 0 < (rows.filter fun row => row[col.index]? == some Value.vnull).length
      then some (Warning.missingValues col.name
        (rows.filter fun row => row[col.index]? == some Value.vnull).length)
      else none) = some w := hcol
  split at hcol2
  · exact ⟨_, _, (Option.some.inj hcol2).symm⟩
  · cases hcol2

theorem unparseableWarnings_shape (cols : List ColumnDescriptor) (rows : List (List Value)) :
    ∀ w ∈ unparseableWarnings cols rows, ∃ s k, w = Warning.unparseable s k := by
  intro w hw
  rw [unparseableWarnings] at hw
  obtain ⟨col, -, hcol⟩ := List.mem_filterMap.mp hw
  have hcol2 : (if (col.type == ColType.numeric) = true then
      (if 0 < (rows.filter fun row =>
            match row[col.index]? with
            | some (Value.vstr _) => true
            | _ => false).length
        then some (Warning.unparseable col.name
          (rows.filter fun row =>
            match row[col.index]? with
            | some (Value.vstr _) => true
            | _ => false).length)
        else none)
      else none) = some w := hcol
  split at hcol2
  · split at hcol2
    · exact ⟨_, _, (Option.some.inj hcol2).symm⟩
    · cases hcol2
  · cases hcol2

/-- C10: on every successful parse, the preview is exactly the 20-element
prefix slice of the full converted row sequence (the same rows, a view and
not a separate computation — so its length is `min 20 rowCount`), and
`rowCount` is the length of the full row sequence. -/
theorem parseCSV_preview_spec (text : String) (ov : Overrides) (t : ParsedTable)
    (h : okTable? (parseCSV text ov) = some t) :
    t.preview = t.data.take 20 ∧
    t.rowCount = t.data.length ∧
    t.preview.length = min 20 t.rowCount := by
  obtain ⟨-, -, hc, hp, -⟩ := parseCSV_ok_fields text ov t h
  refine ⟨hp, hc, ?_⟩
  rw [hp, List.length_take, hc]

theorem parseCSV_preview_spec_witness :
    ((okTable? (parseCSV "a,b\n1,2" noOverrides)).getD emptyTable).preview
        = ((okTable? (parseCSV "a,b\n1,2" noOverrides)).getD emptyTable).data.take 20 ∧
    ((okTable? (parseCSV "a,b\n1,2" noOverrides)).getD emptyTable).rowCount
        = ((okTable? (parseCSV "a,b\n1,2" noOverrides)).getD emptyTable).data.length ∧
    ((okTable? (parseCSV "a,b\n1,2" noOverrides)).getD emptyTable).preview.length
        = min 20 ((okTable? (parseCSV "a,b\n1,2" noOverrides)).getD emptyTable).rowCount := by
  have hs : (okTable? (parseCSV "a,b\n1,2" noOverrides)).isSome = true := by decide
  rcases hok : okTable? (parseCSV "a,b\n1,2" noOverrides) with _ | t
  · rw [hok] at hs
    cases hs
  · simp only [Option.getD_some]
    exact parseCSV_preview_spec "a,b\n1,2" noOverrides t hok

/-- C8: on every successful parse, the table's rows are obtained by dropping
the tokenized rows whose field count differs from the header's field count
and only then applying decimal normalization and type conversion; every
retained row has exactly as many cells as there are columns; and a
ragged-rows warning carrying the dropped count is present exactly when rows
were dropped. -/
theorem parseCSV_ragged_spec (text : String) (ov : Overrides) (t : ParsedTable)
    (h : okTable? (parseCSV text ov) = some t) :
    t.data = convertRows (normalizeRows (resolvedDecimalSep text ov) (keptRowsOf text ov)) ∧
    (∀ row ∈ t.data, row.length = t.columns.length) ∧
    ((keptRowsOf text ov).length < (parsedRowsOf text ov).length →
      Warning.raggedRows ((parsedRowsOf text ov).length - (keptRowsOf text ov).length)
        ∈ t.warnings) ∧
    (¬ (keptRowsOf text ov).length < (parsedRowsOf text ov).length →
      ∀ n, Warning.raggedRows n ∉ t.warnings) := by
  obtain ⟨hcols, hdata, -, -, hw⟩ := parseCSV_ok_fields text ov t h
  refine ⟨hdata, ?_, ?_, ?_⟩
  · intro row hrow
    rw [hdata] at hrow
    rw [hcols, pipelineColumns, inferColumnTypes_length]
    exact pipelineRows_length text ov row hrow
  · intro hlt
    rw [hw, pipelineWarningsOf, raggedWarningsOf, if_pos hlt]
    simp
  · intro hge n hn
    rw [hw, pipelineWarningsOf, raggedWarningsOf, if_neg hge] at hn
    simp only [List.nil_append, List.mem_append] at hn
    rcases hn with (hn | hn) | hn
    · exact Warning.noConfusion (noNumericWarningsOf_shape text ov _ hn)
    · obtain ⟨s, k, hk⟩ := missingValueWarnings_shape _ _ _ hn
      exact Warning.noConfusion hk
    · obtain ⟨s, k, hk⟩ := unparseableWarnings_shape _ _ _ hn
      exact Warning.noConfusion hk

theorem parseCSV_ragged_spec_witness :
    Warning.raggedRows 1
      ∈ ((okTable? (parseCSV "a,b\n1,2\n3" noOverrides)).getD emptyTable).warnings := by
  have hs : (okTable? (parseCSV "a,b\n1,2\n3" noOverrides)).isSome = true := by decide
  rcases hok : okTable? (parseCSV "a,b\n1,2\n3" noOverrides) with _ | t
  · rw [hok] at hs
    cases hs
  · simp only [Option.getD_some]
    have hdrop : (keptRowsOf "a,b\n1,2\n3" noOverrides).length
        < (parsedRowsOf "a,b\n1,2\n3" noOverrides).length := by decide
    have hmem := (parseCSV_ragged_spec "a,b\n1,2\n3" noOverrides t hok).2.2.1 hdrop
    have hcount : (parsedRowsOf "a,b\n1,2\n3" noOverrides).length
        - (keptRowsOf "a,b\n1,2\n3" noOverrides).length = 1 := by decide
    rwa [hcount] at hmem

/-- C3: `parseCSV` fails exactly with the three typed codes — `NO_DATA` iff
preprocessing leaves no data line (in particular for any text whose
retained lines are all `#`-comments, which covers the no-non-blank-line
case), `NO_DATA_ROWS` iff data lines exist but the header resolution leaves
no row (which only happens when a header was identified), and
`TOO_FEW_COLUMNS` iff the resolved header has fewer than two fields — and
in every other case it returns a table, so malformed cells or ragged rows
alone never cause an error; the single line `"x,y"` raises
`NO_DATA_ROWS`. -/
theorem parseCSV_error_taxonomy :
    (∀ (text : String) (ov : Overrides),
      (errCode? (parseCSV text ov) = some ErrCode.NO_DATA ↔
        (preprocessLines text).dataLines = []) ∧
      (errCode? (parseCSV text ov) = some ErrCode.NO_DATA_ROWS ↔
        ((preprocessLines text).dataLines ≠ [] ∧ (resolvedHeader text ov).rowLines = [])) ∧
      (errCode? (parseCSV text ov) = some ErrCode.TOO_FEW_COLUMNS ↔
        ((preprocessLines text).dataLines ≠ [] ∧ (resolvedHeader text ov).rowLines ≠ [] ∧
          (resolvedHeader text ov).headerNames.length < 2)) ∧
      ((okTable? (parseCSV text ov)).isSome = true ↔
        ((preprocessLines text).dataLines ≠ [] ∧ (resolvedHeader text ov).rowLines ≠ [] ∧
          ¬ (resolvedHeader text ov).headerNames.length < 2)) ∧
      ((∀ l ∈ rawLines text, isCommentLine l = true) →
        errCode? (parseCSV text ov) = some ErrCode.NO_DATA) ∧
      ((resolvedHeader text ov).rowLines = [] → (preprocessLines text).dataLines ≠ [] →
        (resolvedHeader text ov).hasHeaderDetected = true)) ∧
    errCode? (parseCSV "x,y" noOverrides) = some ErrCode.NO_DATA_ROWS := by
  refine ⟨?_, by decide⟩
  intro text ov
  obtain ⟨hA, hB, hC, hD⟩ := parseCSV_error_iff text ov
  refine ⟨hA, hB, hC, hD, ?_, ?_⟩
  · intro hall
    rw [hA]
    have hdl : (preprocessLines text).dataLines
        = (rawLines text).filter (fun l => !(isCommentLine l)) := by
      have hu : preprocessLines text = preprocessAux (rawLines text) none [] 0 false := rfl
      rw [hu, preprocessAux_spec]
      simp
    rw [hdl, List.filter_eq_nil_iff]
    intro a ha
    simp [hall a ha]
  · intro hrow hne
    rcases resolveHeader_rowLines_cases (preprocessLines text).commentHeaderLine
        (preprocessLines text).dataLines (resolvedDelimiter text ov)
        (resolvedDecimalSep text ov) ov.hasHeader with hcase | ⟨-, hh⟩
    · have hdl : (preprocessLines text).dataLines = [] := by
        rw [← hcase]
        exact hrow
      exact absurd hdl hne
    · exact hh

theorem parseCSV_error_taxonomy_witness :
    errCode? (parseCSV "#x\n#y" noOverrides) = some ErrCode.NO_DATA :=
  (parseCSV_error_taxonomy.1 "#x\n#y" noOverrides).2.2.2.2.1 (by decide)

/-! ## Delimiter-detection lemmas -/

/-- A candidate is consistent over the sample window: equal non-zero
per-line counts (`min == max && min > 0`). -/
def consistentWith (ls : List String) (c : Char) : Prop :=
  minCountOf ls c = maxCountOf ls c ∧ 0 < minCountOf ls c

/-- The count variance `max - min` of a candidate over the sample window. -/
def varOf (ls : List String) (c : Char) : Nat :=
  maxCountOf ls c - minCountOf ls c

theorem delimStat_isConsistent_iff (ls : List String) (c : Char) :
    (delimStat (ls.take 5) c).isConsistent = true ↔ consistentWith ls c := by
  simp only [delimStat, consistentWith, minCountOf, maxCountOf, sampleCounts,
    Bool.and_eq_true, beq_iff_eq, Bool.not_eq_true', beq_eq_false_iff_ne, ne_eq,
    Nat.pos_iff_ne_zero]

theorem noWorse_trans {a b c : DelimStat} :
    (a.maxCount - a.minCount < b.maxCount - b.minCount ∨
      (a.maxCount - a.minCount = b.maxCount - b.minCount ∧ b.minCount ≤ a.minCount)) →
    (b.maxCount - b.minCount < c.maxCount - c.minCount ∨
      (b.maxCount - b.minCount = c.maxCount - c.minCount ∧ c.minCount ≤ b.minCount)) →
    (a.maxCount - a.minCount < c.maxCount - c.minCount ∨
      (a.maxCount - a.minCount = c.maxCount - c.minCount ∧ c.minCount ≤ a.minCount)) := by
  omega

theorem pickBetter_noWorse_left (a b : DelimStat) :
    (pickBetter a b).maxCount - (pickBetter a b).minCount < a.maxCount - a.minCount ∨
      ((pickBetter a b).maxCount - (pickBetter a b).minCount = a.maxCount - a.minCount ∧
        a.minCount ≤ (pickBetter a b).minCount) := by
  rw [pickBetter]
  split
  · omega
  · omega

theorem pickBetter_noWorse_right (a b : DelimStat) :
    (pickBetter a b).maxCount - (pickBetter a b).minCount < b.maxCount - b.minCount ∨
      ((pickBetter a b).maxCount - (pickBetter a b).minCount = b.maxCount - b.minCount ∧
        b.minCount ≤ (pickBetter a b).minCount) := by
  rw [pickBetter]
  split
  · omega
  · rename_i hcond
    omega

theorem foldl_pickBetter_mem (ws : List DelimStat) :
    ∀ w : DelimStat, ws.foldl pickBetter w ∈ w :: ws := by
  induction ws with
  | nil =>
    intro w
    simp
  | cons s ws' ih =>
    intro w
    rw [List.foldl_cons]
    have hm : pickBetter w s = w ∨ pickBetter w s = s := by
      rw [pickBetter]
      split
      · right
        rfl
      · left
        rfl
    have h2 := ih (pickBetter w s)
    rcases List.mem_cons.mp h2 with h | h
    · rcases hm with hw | hs
      · rw [h, hw]
        exact List.mem_cons_self _ _
      · rw [h, hs]
        exact List.mem_cons_of_mem _ (List.mem_cons_self _ _)
    · exact List.mem_cons_of_mem _ (List.mem_cons_of_mem _ h)

theorem foldl_pickBetter_noWorse (ws : List DelimStat) :
    ∀ (w : DelimStat), ∀ r ∈ w :: ws,
      (ws.foldl pickBetter w).maxCount - (ws.foldl pickBetter w).minCount
          < r.maxCount - r.minCount ∨
        ((ws.foldl pickBetter w).maxCount - (ws.foldl pickBetter w).minCount
            = r.maxCount - r.minCount ∧
          r.minCount ≤ (ws.foldl pickBetter w).minCount) := by
  induction ws with
  | nil =>
    intro w r hr
    simp only [List.mem_singleton] at hr
    subst hr
    simp
  | cons s ws' ih =>
    intro w r hr
    rw [List.foldl_cons]
    rcases List.mem_cons.mp hr with h | h
    · rw [h]
      exact noWorse_trans (ih (pickBetter w s) _ (List.mem_cons_self _ _))
        (pickBetter_noWorse_left w s)
    · rcases List.mem_cons.mp h with h2 | h2
      · rw [h2]
        exact noWorse_trans (ih (pickBetter w s) _ (List.mem_cons_self _ _))
          (pickBetter_noWorse_right w s)
      · exact ih (pickBetter w s) r (List.mem_cons_of_mem _ h2)

theorem take5_ne_nil {ls : List String} (h : ls ≠ []) : ls.take 5 ≠ [] := by
  cases ls with
  | nil => exact absurd rfl h
  | cons a t => simp

theorem delimStat_not_consistent (ls : List String) (c : Char)
    (h : ¬ consistentWith ls c) : (delimStat (ls.take 5) c).isConsistent = false := by
  rw [Bool.eq_false_iff]
  intro ht
  exact h ((delimStat_isConsistent_iff ls c).mp ht)

theorem autoDetect_tab (ls : List String) (h : ls ≠ []) (hc : consistentWith ls '\t') :
    autoDetectDelimiter ls = "\t" := by
  have h5 := take5_ne_nil h
  have hb := (delimStat_isConsistent_iff ls '\t').mpr hc
  simp only [autoDetectDelimiter, if_neg h5, List.map_cons, List.map_nil, List.filter_cons,
    List.filter_nil, hb]
  simp
  rfl

theorem autoDetect_semi (ls : List String) (h : ls ≠ []) (hnt : ¬ consistentWith ls '\t')
    (hc : consistentWith ls ';') : autoDetectDelimiter ls = ";" := by
  have h5 := take5_ne_nil h
  have hbT := delimStat_not_consistent ls '\t' hnt
  have hbS := (delimStat_isConsistent_iff ls ';').mpr hc
  simp only [autoDetectDelimiter, if_neg h5, List.map_cons, List.map_nil, List.filter_cons,
    List.filter_nil, hbT, hbS]
  simp
  rfl

theorem autoDetect_comma_consistent (ls : List String) (h : ls ≠ [])
    (hnt : ¬ consistentWith ls '\t') (hns : ¬ consistentWith ls ';')
    (hc : consistentWith ls ',') : autoDetectDelimiter ls = "," := by
  have h5 := take5_ne_nil h
  have hbT := delimStat_not_consistent ls '\t' hnt
  have hbS := delimStat_not_consistent ls ';' hns
  have hbC := (delimStat_isConsistent_iff ls ',').mpr hc
  simp only [autoDetectDelimiter, if_neg h5, List.map_cons, List.map_nil, List.filter_cons,
    List.filter_nil, hbT, hbS, hbC]
  simp
  rfl

theorem autoDetect_fallback (ls : List String) (h : ls ≠ [])
    (hnt : ¬ consistentWith ls '\t') (hns : ¬ consistentWith ls ';')
    (hnc : ¬ consistentWith ls ',')
    (hpos : 0 < minCountOf ls '\t' ∨ 0 < minCountOf ls ';' ∨ 0 < minCountOf ls ',') :
    ∃ c, c ∈ [('\t' : Char), ';', ','] ∧ autoDetectDelimiter ls = c.toString ∧
      0 < minCountOf ls c ∧
      ∀ c' ∈ [('\t' : Char), ';', ','], 0 < minCountOf ls c' →
        (varOf ls c < varOf ls c' ∨
          (varOf ls c = varOf ls c' ∧ minCountOf ls c' ≤ minCountOf ls c)) := by
  have h5 := take5_ne_nil h
  have hbT := delimStat_not_consistent ls '\t' hnt
  have hbS := delimStat_not_consistent ls ';' hns
  have hbC := delimStat_not_consistent ls ',' hnc
  have hpass : ∀ c : Char, 0 < minCountOf ls c →
      (!((delimStat (ls.take 5) c).minCount == 0)) = true := by
    intro c hcpos
    have he : (delimStat (ls.take 5) c).minCount = minCountOf ls c := rfl
    simp only [he, Bool.not_eq_true', beq_eq_false_iff_ne, ne_eq]
    omega
  have hfilter_cons : ([delimStat (ls.take 5) '\t', delimStat (ls.take 5) ';',
      delimStat (ls.take 5) ','].filter (fun r => r.isConsistent)) = [] := by
    simp [List.filter_cons, hbT, hbS, hbC]
  rcases hw : ([delimStat (ls.take 5) '\t', delimStat (ls.take 5) ';',
      delimStat (ls.take 5) ','].filter (fun r => !(r.minCount == 0))) with _ | ⟨w, ws⟩
  · exfalso
    rcases hpos with hp | hp | hp
    · have hm : delimStat (ls.take 5) '\t' ∈ ([delimStat (ls.take 5) '\t',
          delimStat (ls.take 5) ';', delimStat (ls.take 5) ','].filter
            (fun r => !(r.minCount == 0))) :=
        List.mem_filter.mpr ⟨by simp, hpass '\t' hp⟩
      rw [hw] at hm
      simp at hm
    · have hm : delimStat (ls.take 5) ';' ∈ ([delimStat (ls.take 5) '\t',
          delimStat (ls.take 5) ';', delimStat (ls.take 5) ','].filter
            (fun r => !(r.minCount == 0))) :=
        List.mem_filter.mpr ⟨by simp, hpass ';' hp⟩
      rw [hw] at hm
      simp at hm
    · have hm : delimStat (ls.take 5) ',' ∈ ([delimStat (ls.take 5) '\t',
          delimStat (ls.take 5) ';', delimStat (ls.take 5) ','].filter
            (fun r => !(r.minCount == 0))) :=
        List.mem_filter.mpr ⟨by simp, hpass ',' hp⟩
      rw [hw] at hm
      simp at hm
  · have hmain : autoDetectDelimiter ls = ((ws.foldl pickBetter w).delim).toString := by
      simp only [autoDetectDelimiter, if_neg h5, List.map_cons, List.map_nil]
      rw [hfilter_cons, hw]
    have hchosen := foldl_pickBetter_mem ws w
    have hchosen2 := hchosen
    rw [← hw] at hchosen2
    obtain ⟨hmem_res, hpassed⟩ := List.mem_filter.mp hchosen2
    have hminpos : 0 < (ws.foldl pickBetter w).minCount := by
      simp only [Bool.not_eq_true', beq_eq_false_iff_ne, ne_eq] at hpassed
      omega
    have hnw := foldl_pickBetter_noWorse ws w
    have hstatmem : ∀ c' : Char, 0 < minCountOf ls c' →
        delimStat (ls.take 5) c' ∈ [delimStat (ls.take 5) '\t', delimStat (ls.take 5) ';',
          delimStat (ls.take 5) ','] →
        delimStat (ls.take 5) c' ∈ w :: ws := by
      intro c' hp' hmem'
      rw [← hw]
      exact List.mem_filter.mpr ⟨hmem', hpass c' hp'⟩
    simp only [List.mem_cons, List.mem_singleton, List.not_mem_nil, or_false] at hmem_res
    rcases hmem_res with hcc | hcc | hcc
    · refine ⟨'\t', by simp, ?_, ?_, ?_⟩
      · rw [hmain, hcc]
        rfl
      · rw [hcc] at hminpos
        exact hminpos
      · intro c' hc' hp'
        rcases (by simpa using hc' : c' = '\t' ∨ c' = ';' ∨ c' = ',') with rfl | rfl | rfl
        · have hn := hnw _ (hstatmem '\t' hp' (by simp))
          rw [hcc] at hn
          exact hn
        · have hn := hnw _ (hstatmem ';' hp' (by simp))
          rw [hcc] at hn
          exact hn
        · have hn := hnw _ (hstatmem ',' hp' (by simp))
          rw [hcc] at hn
          exact hn
    · refine ⟨';', by simp, ?_, ?_, ?_⟩
      · rw [hmain, hcc]
        rfl
      · rw [hcc] at hminpos
        exact hminpos
      · intro c' hc' hp'
        rcases (by simpa using hc' : c' = '\t' ∨ c' = ';' ∨ c' = ',') with rfl | rfl | rfl
        · have hn := hnw _ (hstatmem '\t' hp' (by simp))
          rw [hcc] at hn
          exact hn
        · have hn := hnw _ (hstatmem ';' hp' (by simp))
          rw [hcc] at hn
          exact hn
        · have hn := hnw _ (hstatmem ',' hp' (by simp))
          rw [hcc] at hn
          exact hn
    · refine ⟨',', by simp, ?_, ?_, ?_⟩
      · rw [hmain, hcc]
        rfl
      · rw [hcc] at hminpos
        exact hminpos
      · intro c' hc' hp'
        rcases (by simpa using hc' : c' = '\t' ∨ c' = ';' ∨ c' = ',') with rfl | rfl | rfl
        · have hn := hnw _ (hstatmem '\t' hp' (by simp))
          rw [hcc] at hn
          exact hn
        · have hn := hnw _ (hstatmem ';' hp' (by simp))
          rw [hcc] at hn
          exact hn
        · have hn := hnw _ (hstatmem ',' hp' (by simp))
          rw [hcc] at hn
          exact hn

theorem autoDetect_comma_default (ls : List String)
    (h : ls = [] ∨ ∀ c ∈ [('\t' : Char), ';', ','], minCountOf ls c = 0) :
    autoDetectDelimiter ls = "," := by
  rcases h with rfl | hall
  · rfl
  · by_cases hnil : ls = []
    · rw [hnil]
      rfl
    · have h5 := take5_ne_nil hnil
      have hflag : ∀ c ∈ [('\t' : Char), ';', ','],
          (delimStat (ls.take 5) c).isConsistent = false := by
        intro c hc
        rw [Bool.eq_false_iff]
        intro ht
        have hcons := (delimStat_isConsistent_iff ls c).mp ht
        have h0 := hall c hc
        rw [consistentWith] at hcons
        omega
      have hpred : ∀ c ∈ [('\t' : Char), ';', ','],
          (!((delimStat (ls.take 5) c).minCount == 0)) = false := by
        intro c hc
        have he : (delimStat (ls.take 5) c).minCount = minCountOf ls c := rfl
        simp [he, hall c hc]
      simp only [autoDetectDelimiter, if_neg h5, List.map_cons, List.map_nil,
        List.filter_cons, List.filter_nil,
        hflag '\t' (by simp), hflag ';' (by simp), hflag ',' (by simp),
        hpred '\t' (by simp), hpred ';' (by simp), hpred ',' (by simp)]
      simp

theorem foldl_min_const (k : Nat) : ∀ t : List Nat, (∀ x ∈ t, x = k) →
    t.foldl Nat.min k = k := by
  intro t
  induction t with
  | nil => intro _; rfl
  | cons a t' ih =>
    intro hall
    have hm : Nat.min k k = k := by simp [Nat.min_def]
    rw [List.foldl_cons, hall a (List.mem_cons_self _ _), hm]
    exact ih fun x hx => hall x (List.mem_cons_of_mem _ hx)

theorem foldl_max_const (k : Nat) : ∀ t : List Nat, (∀ x ∈ t, x = k) →
    t.foldl Nat.max k = k := by
  intro t
  induction t with
  | nil => intro _; rfl
  | cons a t' ih =>
    intro hall
    have hm : Nat.max k k = k := by simp [Nat.max_def]
    rw [List.foldl_cons, hall a (List.mem_cons_self _ _), hm]
    exact ih fun x hx => hall x (List.mem_cons_of_mem _ hx)

theorem minCountOf_const (ls : List String) (c : Char) (k : Nat) (hne : ls ≠ [])
    (h : ∀ l ∈ ls.take 5, countChar c l = k) : minCountOf ls c = k := by
  rw [minCountOf, sampleCounts]
  rcases hT : ls.take 5 with _ | ⟨a, t⟩
  · exact absurd hT (take5_ne_nil hne)
  · rw [hT] at h
    rw [List.map_cons, jsMinL, h a (List.mem_cons_self _ _)]
    refine foldl_min_const k _ ?_
    intro x hx
    obtain ⟨l, hl, rfl⟩ := List.mem_map.mp hx
    exact h l (List.mem_cons_of_mem _ hl)

theorem maxCountOf_const (ls : List String) (c : Char) (k : Nat) (hne : ls ≠ [])
    (h : ∀ l ∈ ls.take 5, countChar c l = k) : maxCountOf ls c = k := by
  rw [maxCountOf, sampleCounts]
  rcases hT : ls.take 5 with _ | ⟨a, t⟩
  · exact absurd hT (take5_ne_nil hne)
  · rw [hT] at h
    rw [List.map_cons, jsMaxL, h a (List.mem_cons_self _ _)]
    refine foldl_max_const k _ ?_
    intro x hx
    obtain ⟨l, hl, rfl⟩ := List.mem_map.mp hx
    exact h l (List.mem_cons_of_mem _ hl)

/-- C2: `autoDetectDelimiter` looks only at the first five data lines; a
candidate is consistent when its per-line counts have `min = max > 0`; the
first consistent candidate in the priority order tab, semicolon, comma wins
(so lines with exactly one tab and one semicolon each give tab, never
semicolon); otherwise among candidates appearing in every sampled line the
least-variance one wins with ties broken by the higher minimum; and with no
such candidate — or no data lines at all — the comma is returned. -/
theorem autoDetectDelimiter_spec :
    (∀ ls : List String, autoDetectDelimiter ls = autoDetectDelimiter (ls.take 5)) ∧
    (∀ ls : List String, ls ≠ [] → consistentWith ls '\t' →
      autoDetectDelimiter ls = "\t") ∧
    (∀ ls : List String, ls ≠ [] → ¬ consistentWith ls '\t' → consistentWith ls ';' →
      autoDetectDelimiter ls = ";") ∧
    (∀ ls : List String, ls ≠ [] → ¬ consistentWith ls '\t' → ¬ consistentWith ls ';' →
      consistentWith ls ',' → autoDetectDelimiter ls = ",") ∧
    (∀ ls : List String, ls ≠ [] →
      (∀ l ∈ ls.take 5, countChar '\t' l = 1 ∧ countChar ';' l = 1) →
      autoDetectDelimiter ls = "\t") ∧
    (∀ ls : List String, ls ≠ [] → ¬ consistentWith ls '\t' → ¬ consistentWith ls ';' →
      ¬ consistentWith ls ',' →
      (0 < minCountOf ls '\t' ∨ 0 < minCountOf ls ';' ∨ 0 < minCountOf ls ',') →
      ∃ c, c ∈ [('\t' : Char), ';', ','] ∧ autoDetectDelimiter ls = c.toString ∧
        0 < minCountOf ls c ∧
        ∀ c' ∈ [('\t' : Char), ';', ','], 0 < minCountOf ls c' →
          (varOf ls c < varOf ls c' ∨
            (varOf ls c = varOf ls c' ∧ minCountOf ls c' ≤ minCountOf ls c))) ∧
    (∀ ls : List String, (ls = [] ∨ ∀ c ∈ [('\t' : Char), ';', ','], minCountOf ls c = 0) →
      autoDetectDelimiter ls = ",") := by
  refine ⟨?_, autoDetect_tab, autoDetect_semi, autoDetect_comma_consistent, ?_,
    autoDetect_fallback, autoDetect_comma_default⟩
  · intro ls
    have h55 : (ls.take 5).take 5 = ls.take 5 := by
      rw [List.take_take]
      norm_num
    simp only [autoDetectDelimiter, h55]
  · intro ls hne hcount
    have hmin := minCountOf_const ls '\t' 1 hne fun l hl => (hcount l hl).1
    have hmax := maxCountOf_const ls '\t' 1 hne fun l hl => (hcount l hl).1
    exact autoDetect_tab ls hne ⟨by omega, by omega⟩

theorem autoDetectDelimiter_spec_witness :
    autoDetectDelimiter ["a\t;b", "c\t;d"] = "\t" :=
  autoDetectDelimiter_spec.2.2.2.2.1 ["a\t;b", "c\t;d"] (by decide) (by decide)
